import Mathlib

/-!
Shallow embedding of `src/rawd.c` (jgor/ircss): a single-process TCP relay.
File descriptors are `Nat`; the `fd_set master` bitset is a `Finset Nat`;
syscall outcomes (getaddrinfo, socket, setsockopt, bind, listen, accept,
select, read, write) are supplied by environment parameters, since the code
only branches on their results.  `error(msg)` (perror + exit(EXIT_FAILURE))
is modelled as an `Except.error` carrying the message and exit code 1.
-/

/-- The macro `MAX_CONNS = 10` (rawd.c line 37): listen backlog bound. -/
def MAX_CONNS : Nat := 10

/-- The macro `MAX_BUF = 255` (rawd.c line 40): message buffer capacity. -/
def MAX_BUF : Nat := 255

/-- Outcome of `error(msg)` (rawd.c lines 70-73): the diagnostic printed via
`perror` and the process exit status `EXIT_FAILURE = 1`. -/
structure Fatal where
  msg : String
  code : Nat
deriving Repr, DecidableEq

/-- The `error` helper (rawd.c lines 70-73): perror the message, exit with failure code. -/
def error (msg : String) : Fatal := ⟨msg, 1⟩

/-- Classes of `errno` after a failed `accept`; the code never inspects it. -/
inductive Errno where
  | eintr
  | econnaborted
  | other
deriving Repr, DecidableEq

/-- Whether an accept errno is transient/retryable. -/
def Errno.transient : Errno → Bool
  | .eintr => true
  | .econnaborted => true
  | .other => false

/-- The function `init_cli` (rawd.c lines 137-145): blocking accept of one connection.
`r` is the accept result (fd, or the errno on failure).  Any failure, of
any errno class, runs `error("ERROR on accept")`. -/
def init_cli (r : Except Errno Nat) : Except Fatal Nat :=
  match r with
  | Except.ok fd => Except.ok fd
  | Except.error _ => Except.error (error "ERROR on accept")

/-- One getaddrinfo candidate address as the bind loop (rawd.c lines 99-111)
observes it: the result of `socket()` on it, of `setsockopt(SO_REUSEADDR)`,
and of `bind()`. -/
structure Candidate where
  sockfd : Option Nat
  soOk : Bool
  bindOk : Bool
deriving Repr, DecidableEq

/-- The candidate loop of `init_srv` (rawd.c lines 99-111): for each
candidate, `socket` failure ⇒ continue; `setsockopt` failure ⇒ fatal;
`bind` failure ⇒ continue; else break with this socket.  `Except.ok none`
models falling off the end (`res == NULL`). -/
def tryBind : List Candidate → Except Fatal (Option Nat)
  | [] => Except.ok none
  | c :: rest =>
    match c.sockfd with
    | none => tryBind rest
    | some fd =>
      if c.soOk = false then Except.error (error "ERROR on setsockopt")
      else if c.bindOk = false then tryBind rest
      else Except.ok (some fd)

/-- Environment responses for `init_srv`: the resolved candidate list
(`none` = getaddrinfo failure), the `listen` result as a function of the
backlog argument, and the `sigaction` result. -/
structure SrvEnv where
  resolution : Option (List Candidate)
  listenOk : Nat → Bool
  sigactionOk : Bool

/-- The function `init_srv` (rawd.c lines 80-130).  Returns the stderr diagnostics
printed by non-fatal paths together with either the listening fd or the
fatal exit.  The out-of-range port check (line 91) only prints
"Invalid port" and falls through. -/
def init_srv (port : Int) (env : SrvEnv) : List String × Except Fatal Nat :=
  let log := if port < 1 ∨ port > 65535 then ["Invalid port"] else []
  match env.resolution with
  | none => (log ++ ["ERROR on getaddrinfo"], Except.error ⟨"ERROR on getaddrinfo", 1⟩)
  | some cands =>
    match tryBind cands with
    | Except.error e => (log, Except.error e)
    | Except.ok none => (log ++ ["ERROR binding"], Except.error ⟨"ERROR binding", 1⟩)
    | Except.ok (some fd) =>
      if env.listenOk MAX_CONNS = false then (log, Except.error (error "ERROR on listen"))
      else if env.sigactionOk = false then (log, Except.error (error "ERROR on sigaction"))
      else (log, Except.ok fd)

/-- The mutable state of the `raw` loop (rawd.c lines 152-205):
`srv_sockfd`, the `master` fd set, `fdmax`, and the reused `buf[MAX_BUF]`. -/
structure RawState where
  srv : Nat
  master : Finset Nat
  fdmax : Nat
  buf : List Nat
deriving DecidableEq

/-- State at loop entry (rawd.c lines 163-168): `master = {srv_sockfd}`,
`fdmax = srv_sockfd`, with the uninitialised buffer contents `buf0`. -/
def initState (srv : Nat) (buf0 : List Nat) : RawState :=
  { srv := srv, master := {srv}, fdmax := srv, buf := buf0 }

/-- The fan-out destinations for a read on fd `i` (rawd.c lines 190-192):
the inner loop scans `j = 0..fdmax` in ascending order and writes to every
`j` in `master` other than `srv_sockfd` and `i`. -/
def recipients (s : RawState) (i : Nat) : List Nat :=
  (List.range (s.fdmax + 1)).filter fun j =>
    decide (j ∈ s.master) && !(j == s.srv) && !(j == i)

/-- The fan-out writes (rawd.c lines 190-196): `write(j, buf, nbytes)` to
each destination in turn; a write returning -1 runs
`error("ERROR on write")`.  `w j` is the environment's write result. -/
def fanout (w : Nat → Bool) (payload : List Nat) :
    List Nat → Except Fatal (List (Nat × List Nat))
  | [] => Except.ok []
  | j :: rest =>
    if w j then
      match fanout w payload rest with
      | Except.ok ws => Except.ok ((j, payload) :: ws)
      | Except.error e => Except.error e
    else Except.error (error "ERROR on write")

/-- Result of `read(i, buf, sizeof(buf))`: -1, 0, or `bs.length > 0` bytes. -/
inductive ReadOutcome where
  | err
  | eof
  | data (bs : List Nat)

/-- The client branch of the loop body (rawd.c lines 182-198): read on fd
`i`; -1 ⇒ fatal "ERROR on read"; 0 ⇒ close and `FD_CLR(i, &master)`;
`n > 0` ⇒ the read bytes `bs` overwrite `buf[0..n)` and `write(j, buf, n)`
goes to every other master fd.  Returns the new state and the performed
writes. -/
def handleClient (s : RawState) (i : Nat) (r : ReadOutcome) (w : Nat → Bool) :
    Except Fatal (RawState × List (Nat × List Nat)) :=
  match r with
  | .err => Except.error (error "ERROR on read")
  | .eof => Except.ok ({ s with master := s.master.erase i }, [])
  | .data bs =>
    let buf' := bs ++ s.buf.drop bs.length
    let payload := buf'.take bs.length
    match fanout w payload (recipients s i) with
    | Except.ok ws => Except.ok ({ s with buf := buf' }, ws)
    | Except.error e => Except.error e

/-- The listener branch of the loop body (rawd.c lines 177-181):
`init_cli`, then `FD_SET(cli_sockfd, &master)` and raise `fdmax`. -/
def handleAccept (s : RawState) (r : Except Errno Nat) : Except Fatal RawState :=
  match init_cli r with
  | Except.error e => Except.error e
  | Except.ok cli =>
    Except.ok { s with master := insert cli s.master,
                       fdmax := if cli > s.fdmax then cli else s.fdmax }

/-- The select call at the top of each iteration (rawd.c lines 172-173):
a -1 result runs `error("ERROR on select")`. -/
def selectStep (ok : Bool) : Except Fatal Unit :=
  if ok then Except.ok () else Except.error (error "ERROR on select")

/-- A dispatch event of the loop: the listening fd ready (accept result
`r`), or client fd `i` ready (read outcome `r`, write results `w`,
performed writes `ws`). -/
inductive Ev where
  | acc (r : Except Errno Nat)
  | cli (i : Nat) (r : ReadOutcome) (w : Nat → Bool) (ws : List (Nat × List Nat))

/-- One successfully dispatched ready fd of the `raw` loop.  A client event
requires `i ∈ master` (read_fds is a copy of master and each fd is visited
once per pass) and `i ≠ srv` (the branch condition at line 177); a data
read returns at least one and at most `MAX_BUF` bytes. -/
def Step (s : RawState) (e : Ev) (s' : RawState) : Prop :=
  match e with
  | Ev.acc r => handleAccept s r = Except.ok s'
  | Ev.cli i r w ws =>
    i ∈ s.master ∧ i ≠ s.srv ∧
    (∀ bs, r = ReadOutcome.data bs → bs ≠ [] ∧ bs.length ≤ MAX_BUF) ∧
    handleClient s i r w = Except.ok (s', ws)

/-- States of the `raw` loop reachable from the post-listen initial state. -/
inductive Reaches (srv : Nat) (buf0 : List Nat) : RawState → Prop
  | refl : Reaches srv buf0 (initState srv buf0)
  | tail (s : RawState) (e : Ev) (s' : RawState)
      (h : Reaches srv buf0 s) (hs : Step s e s') : Reaches srv buf0 s'

/-- Iterates the client branch over successive reads from the same sender
`i` (one `handleClient` per readiness event, as in the loop body),
accumulating the writes of every pass. -/
def runChunks (i : Nat) (w : Nat → Bool) :
    RawState → List (List Nat) → Except Fatal (RawState × List (Nat × List Nat))
  | s, [] => Except.ok (s, [])
  | s, bs :: rest =>
    match handleClient s i (ReadOutcome.data bs) w with
    | Except.error e => Except.error e
    | Except.ok (s', ws) =>
      match runChunks i w s' rest with
      | Except.error e => Except.error e
      | Except.ok (s'', ws') => Except.ok (s'', ws ++ ws')

/-- A concrete loop state used to instantiate the theorems: listening fd 3
with clients 4 and 5 connected, buffer zeroed. -/
def sampleState : RawState :=
  { srv := 3, master := {3, 4, 5}, fdmax := 5, buf := List.replicate MAX_BUF 0 }

/-- Variant of `sampleState` with different residual buffer contents. -/
def sampleStateAlt : RawState :=
  { srv := 3, master := {3, 4, 5}, fdmax := 5, buf := List.replicate MAX_BUF 42 }

/-- The loop state after the initial state accepts client fd 4. -/
def sampleAccepted : RawState :=
  { srv := 3, master := insert 4 {3}, fdmax := 4, buf := List.replicate MAX_BUF 0 }

/-- A concrete getaddrinfo outcome: a candidate whose socket call fails,
one that binds nothing, and one that binds fd 3. -/
def sampleCands : List Candidate :=
  [⟨none, true, true⟩, ⟨some 7, true, false⟩, ⟨some 3, true, true⟩]

/-- A concrete startup environment built on `sampleCands` where listen and
sigaction succeed. -/
def sampleEnv : SrvEnv :=
  { resolution := some sampleCands, listenOk := fun _ => true, sigactionOk := true }

/-! ## Helper lemmas -/

/-- A successful fan-out wrote the payload to every destination in order. -/
lemma fanout_ok (w : Nat → Bool) (p : List Nat) (l : List Nat) :
    ∀ ws, fanout w p l = Except.ok ws → ws = l.map fun j => (j, p) := by
  induction l with
  | nil => intro ws h; simp [fanout] at h; simp [h]
  | cons j rest ih =>
    intro ws h
    by_cases hw : w j = true
    · rw [fanout, if_pos hw] at h
      cases hfan : fanout w p rest with
      | ok ws' => rw [hfan] at h; injection h with h; rw [← h, List.map_cons, ih ws' hfan]
      | error e => rw [hfan] at h; exact absurd h (by simp)
    · rw [fanout, if_neg hw] at h
      exact absurd h (by simp)

/-- If every destination accepts the write, the fan-out succeeds with the
payload delivered to each destination in list order. -/
lemma fanout_all_ok (w : Nat → Bool) (p : List Nat) (l : List Nat)
    (h : ∀ j ∈ l, w j = true) :
    fanout w p l = Except.ok (l.map fun j => (j, p)) := by
  induction l with
  | nil => rfl
  | cons j rest ih =>
    rw [fanout, if_pos (h j (List.mem_cons_self j rest)),
      ih fun k hk => h k (List.mem_cons_of_mem j hk), List.map_cons]

/-- If some destination rejects the write, the fan-out is fatal with the
"ERROR on write" diagnostic. -/
lemma fanout_fails (w : Nat → Bool) (p : List Nat) (l : List Nat)
    (h : ∃ j ∈ l, w j = false) :
    fanout w p l = Except.error (error "ERROR on write") := by
  induction l with
  | nil => simp at h
  | cons j rest ih =>
    by_cases hw : w j = true
    · rw [fanout, if_pos hw]
      obtain ⟨k, hk, hkw⟩ := h
      rcases List.mem_cons.mp hk with rfl | hk
      · rw [hw] at hkw; exact absurd hkw (by simp)
      · rw [ih ⟨k, hk, hkw⟩]
    · rw [fanout, if_neg hw]

/-- Membership in the fan-out destination list, assuming every registered
fd is within the scanned range `0..fdmax`. -/
lemma mem_recipients (s : RawState) (i : Nat)
    (hm : ∀ j ∈ s.master, j ≤ s.fdmax) (j : Nat) :
    j ∈ recipients s i ↔ j ∈ s.master ∧ j ≠ s.srv ∧ j ≠ i := by
  simp only [recipients, List.mem_filter, List.mem_range, Nat.lt_succ_iff,
    Bool.and_eq_true, decide_eq_true_iff, Bool.not_eq_true', beq_eq_false_iff_ne]
  constructor
  · rintro ⟨_, ⟨h1, h2⟩, h3⟩; exact ⟨h1, h2, h3⟩
  · rintro ⟨h1, h2, h3⟩; exact ⟨hm j h1, ⟨h1, h2⟩, h3⟩

/-- The destination scan visits fds in ascending order. -/
lemma recipients_sorted (s : RawState) (i : Nat) :
    (recipients s i).Pairwise (· < ·) :=
  (List.pairwise_lt_range (s.fdmax + 1)).filter _

/-- No fd appears twice among the fan-out destinations. -/
lemma recipients_nodup (s : RawState) (i : Nat) : (recipients s i).Nodup :=
  (List.nodup_range (s.fdmax + 1)).filter _

/-- Every fan-out destination is a registered fd. -/
lemma recipients_subset_master (s : RawState) (i : Nat) :
    ∀ j ∈ recipients s i, j ∈ s.master := by
  intro j hj
  have := (List.mem_filter.mp hj).2
  simp only [Bool.and_eq_true, decide_eq_true_iff] at this
  exact this.1.1

/-- The sender is never among the fan-out destinations. -/
lemma recipients_ne_self (s : RawState) (i : Nat) :
    ∀ j ∈ recipients s i, j ≠ i := by
  intro j hj
  have := (List.mem_filter.mp hj).2
  simp only [Bool.and_eq_true, Bool.not_eq_true', beq_eq_false_iff_ne] at this
  exact this.2

/-- A positive read of `bs` with every write accepted: the state keeps its
fd bookkeeping, `buf` holds `bs` followed by the old residue, and `bs`
itself is written to every destination. -/
lemma handleClient_data_ok (s : RawState) (i : Nat) (bs : List Nat)
    (w : Nat → Bool) (hw : ∀ j ∈ recipients s i, w j = true) :
    handleClient s i (ReadOutcome.data bs) w =
      Except.ok ({ s with buf := bs ++ s.buf.drop bs.length },
        (recipients s i).map fun j => (j, bs)) := by
  rw [handleClient]
  simp only [List.take_left]
  rw [fanout_all_ok w bs (recipients s i) hw]

/-- A successful accept dispatch: the accept returned a client fd, which is
registered, and `fdmax` is raised to cover it. -/
lemma handleAccept_ok (s : RawState) (r : Except Errno Nat) (s' : RawState)
    (h : handleAccept s r = Except.ok s') :
    ∃ cli, r = Except.ok cli ∧
      s' = { s with master := insert cli s.master,
                    fdmax := if cli > s.fdmax then cli else s.fdmax } := by
  cases r with
  | ok cli =>
    refine ⟨cli, rfl, ?_⟩
    rw [handleAccept, init_cli] at h
    injection h with h
    exact h.symm
  | error e =>
    rw [handleAccept, init_cli] at h
    exact absurd h (by simp)

/-- Any successful client dispatch either erased the sender (orderly close,
no writes) or left the fd bookkeeping unchanged (a broadcast). -/
lemma handleClient_ok_cases (s : RawState) (i : Nat) (r : ReadOutcome)
    (w : Nat → Bool) (s' : RawState) (ws : List (Nat × List Nat))
    (h : handleClient s i r w = Except.ok (s', ws)) :
    (s' = { s with master := s.master.erase i } ∧ ws = []) ∨
      (∃ bs, r = ReadOutcome.data bs ∧
        s' = { s with buf := bs ++ s.buf.drop bs.length } ∧
        ws = (recipients s i).map fun j => (j, bs)) := by
  cases r with
  | err => rw [handleClient] at h; exact absurd h (by simp)
  | eof =>
    rw [handleClient] at h
    injection h with h
    exact Or.inl ⟨(congrArg Prod.fst h).symm, (congrArg Prod.snd h).symm⟩
  | data bs =>
    rw [handleClient] at h
    simp only [List.take_left] at h
    cases hfan : fanout w bs (recipients s i) with
    | ok ws' =>
      rw [hfan] at h
      injection h with h
      rw [Prod.mk.injEq] at h
      refine Or.inr ⟨bs, rfl, h.1.symm, ?_⟩
      rw [← h.2]
      exact fanout_ok w bs (recipients s i) ws' hfan
    | error e => rw [hfan] at h; exact absurd h (by simp)

/-- Every write performed by a successful client dispatch goes to an fd
registered in `master` (and distinct from the sender). -/
lemma handleClient_writes_mem (s : RawState) (i : Nat) (r : ReadOutcome)
    (w : Nat → Bool) (s' : RawState) (ws : List (Nat × List Nat))
    (h : handleClient s i r w = Except.ok (s', ws)) :
    ∀ jp ∈ ws, jp.1 ∈ s.master ∧ jp.1 ≠ i := by
  intro jp hjp
  rcases handleClient_ok_cases s i r w s' ws h with ⟨_, rfl⟩ | ⟨bs, _, _, rfl⟩
  · simp at hjp
  · obtain ⟨j, hj, rfl⟩ := List.mem_map.mp hjp
    exact ⟨recipients_subset_master s i j hj, recipients_ne_self s i j hj⟩

/-- In a duplicate-free fd list containing `j`, keeping only the pairs
addressed to `j` leaves exactly one write. -/
lemma filter_map_pair (c : List Nat) (j : Nat) :
    ∀ l : List Nat, l.Nodup → j ∈ l →
      ((l.map fun k => (k, c)).filter fun p => p.1 == j) = [(j, c)] := by
  intro l
  induction l with
  | nil => intro _ h; simp at h
  | cons a t ih =>
    intro hn hj
    rcases List.mem_cons.mp hj with rfl | hj
    · have hnt : ∀ k ∈ t, ¬(k == j) = true := by
        intro k hk hkj
        exact (List.nodup_cons.mp hn).1 (beq_iff_eq.mp hkj ▸ hk)
      simp only [List.map_cons, List.filter_cons, beq_self_eq_true, if_pos]
      have : ((t.map fun k => (k, c)).filter fun p => p.1 == j) = [] := by
        rw [List.filter_eq_nil_iff]
        intro p hp
        obtain ⟨k, hk, rfl⟩ := List.mem_map.mp hp
        exact hnt k hk
      simp [this]
    · have haj : ¬(a == j) = true := by
        intro h
        exact (List.nodup_cons.mp hn).1 (beq_iff_eq.mp h ▸ hj)
      simp only [List.map_cons, List.filter_cons]
      rw [if_neg haj]
      exact ih (List.nodup_cons.mp hn).2 hj

/-- Preservation of the fd bookkeeping across one dispatched event: the
`srv` field is untouched, its registration is preserved, the
"every registered fd is ≤ fdmax" bound is preserved, and `fdmax` never
decreases. -/
lemma step_inv (s : RawState) (e : Ev) (s' : RawState) (hs : Step s e s') :
    s'.srv = s.srv ∧
    (s.srv ∈ s.master → s.srv ∈ s'.master) ∧
    ((∀ j ∈ s.master, j ≤ s.fdmax) → ∀ j ∈ s'.master, j ≤ s'.fdmax) ∧
    s.fdmax ≤ s'.fdmax := by
  cases e with
  | acc r =>
    obtain ⟨cli, _, rfl⟩ := handleAccept_ok s r _ hs
    refine ⟨rfl, fun h => Finset.mem_insert_of_mem h, fun hb j hj => ?_, ?_⟩
    · rcases Finset.mem_insert.mp hj with rfl | hj
      · by_cases hc : j > s.fdmax
        · simp [hc]
        · simp [hc]; omega
      · have := hb j hj
        by_cases hc : cli > s.fdmax
        · simp [hc]; omega
        · simp [hc]; exact this
    · by_cases hc : cli > s.fdmax
      · simp [hc]; omega
      · simp [hc]
  | cli i r w ws =>
    obtain ⟨hi, hne, hr, hcl⟩ := hs
    rcases handleClient_ok_cases s i r w s' ws hcl with ⟨rfl, _⟩ | ⟨bs, _, rfl, _⟩
    · exact ⟨rfl,
        fun h => Finset.mem_erase.mpr ⟨fun hc => hne hc.symm, h⟩,
        fun hb j hj => hb j (Finset.mem_of_mem_erase hj), Nat.le_refl _⟩
    · exact ⟨rfl, fun h => h, fun hb => hb, Nat.le_refl _⟩

/-- The fd bookkeeping invariant of the loop: the `srv` field is the
original listening fd, it is registered, and every registered fd is
within the scanned range `0..fdmax`. -/
lemma reaches_inv (srv : Nat) (buf0 : List Nat) (s : RawState)
    (h : Reaches srv buf0 s) :
    s.srv = srv ∧ srv ∈ s.master ∧ ∀ j ∈ s.master, j ≤ s.fdmax := by
  induction h with
  | refl => refine ⟨rfl, ?_, ?_⟩ <;> simp [initState]
  | tail s e s' _ hs ih =>
    obtain ⟨ih1, ih2, ih3⟩ := ih
    obtain ⟨p1, p2, p3, _⟩ := step_inv s e s' hs
    exact ⟨p1.trans ih1, by rw [← ih1]; exact p2 (ih1 ▸ ih2), p3 ih3⟩

/-- The bind loop succeeds with fd of the first candidate that both opened
a socket and bound, every earlier candidate having failed at socket
creation or (after a successful SO_REUSEADDR) at bind. -/
lemma tryBind_of_decomp (fd : Nat) (c : Candidate) (post : List Candidate)
    (h1 : c.sockfd = some fd) (h2 : c.soOk = true) (h3 : c.bindOk = true) :
    ∀ pre : List Candidate,
      (∀ c' ∈ pre, c'.sockfd = none ∨ (c'.soOk = true ∧ c'.bindOk = false)) →
      tryBind (pre ++ c :: post) = Except.ok (some fd) := by
  intro pre
  induction pre with
  | nil =>
    intro _
    simp [tryBind, h1, h2, h3]
  | cons c' pre' ih =>
    intro h4
    have hrest : ∀ x ∈ pre', x.sockfd = none ∨ (x.soOk = true ∧ x.bindOk = false) :=
      fun x hx => h4 x (List.mem_cons_of_mem _ hx)
    rcases h4 c' (List.mem_cons_self _ _) with hnone | ⟨hso, hb⟩
    · simp only [List.cons_append, tryBind, hnone]
      exact ih hrest
    · cases hsf : c'.sockfd with
      | none =>
        simp only [List.cons_append, tryBind, hsf]
        exact ih hrest
      | some f =>
        simp only [List.cons_append, tryBind, hsf, hso, hb]
        simpa using ih hrest

/-- Conversely, a successful bind-loop exit decomposes the candidate list:
everything before the chosen candidate failed at socket creation or at
bind (with SO_REUSEADDR set in between), and the chosen one bound `fd`. -/
lemma tryBind_ok_elim (fd : Nat) :
    ∀ cands : List Candidate, tryBind cands = Except.ok (some fd) →
      ∃ pre c post, cands = pre ++ c :: post ∧ c.sockfd = some fd ∧
        c.soOk = true ∧ c.bindOk = true ∧
        ∀ c' ∈ pre, c'.sockfd = none ∨ (c'.soOk = true ∧ c'.bindOk = false) := by
  intro cands
  induction cands with
  | nil => intro h; rw [tryBind] at h; exact absurd h (by simp)
  | cons c rest ih =>
    intro h
    rw [tryBind] at h
    cases hsf : c.sockfd with
    | none =>
      rw [hsf] at h
      obtain ⟨pre, c', post, hc, h1, h2, h3, h4⟩ := ih h
      refine ⟨c :: pre, c', post, by rw [hc, List.cons_append], h1, h2, h3, ?_⟩
      intro x hx
      rcases List.mem_cons.mp hx with rfl | hx
      · exact Or.inl hsf
      · exact h4 x hx
    | some f =>
      rw [hsf] at h
      replace h : (if c.soOk = false then Except.error (error "ERROR on setsockopt")
          else if c.bindOk = false then tryBind rest
          else Except.ok (some f)) = Except.ok (some fd) := h
      by_cases hso : c.soOk = false
      · rw [if_pos hso] at h
        exact absurd h (by simp)
      · rw [if_neg hso] at h
        have hso' : c.soOk = true := by
          cases hv : c.soOk
          · exact absurd hv hso
          · rfl
        by_cases hb : c.bindOk = false
        · rw [if_pos hb] at h
          obtain ⟨pre, c', post, hc, h1, h2, h3, h4⟩ := ih h
          refine ⟨c :: pre, c', post, by rw [hc, List.cons_append], h1, h2, h3, ?_⟩
          intro x hx
          rcases List.mem_cons.mp hx with rfl | hx
          · exact Or.inr ⟨hso', hb⟩
          · exact h4 x hx
        · rw [if_neg hb] at h
          have hb' : c.bindOk = true := by
            cases hv : c.bindOk
            · exact absurd hv hb
            · rfl
          injection h with h
          injection h with h
          exact ⟨[], c, rest, rfl, by rw [hsf, h], hso', hb', fun x hx => by simp at hx⟩

/-! ## Claim theorems -/

/-- C6: `init_srv` tries each resolved candidate in turn until one binds
(everything earlier failed at socket creation or, after SO_REUSEADDR was
set, at bind), a setsockopt failure on an opened candidate socket is fatal
before bind is even consulted, the listen backlog is `MAX_CONNS = 10`, and
resolution failure, no bindable candidate, and listen failure each
terminate the process fatally. -/
theorem init_srv_bind_listen_spec (port : Int) (env : SrvEnv) :
    MAX_CONNS = 10 ∧
    (env.resolution = none →
      (init_srv port env).2 = Except.error ⟨"ERROR on getaddrinfo", 1⟩) ∧
    (∀ cands fd, tryBind cands = Except.ok (some fd) ↔
      ∃ pre c post, cands = pre ++ c :: post ∧ c.sockfd = some fd ∧
        c.soOk = true ∧ c.bindOk = true ∧
        ∀ c' ∈ pre, c'.sockfd = none ∨ (c'.soOk = true ∧ c'.bindOk = false)) ∧
    (∀ (c : Candidate) rest fd, c.sockfd = some fd → c.soOk = false →
      tryBind (c :: rest) = Except.error (error "ERROR on setsockopt")) ∧
    (∀ cands, env.resolution = some cands → tryBind cands = Except.ok none →
      (init_srv port env).2 = Except.error ⟨"ERROR binding", 1⟩) ∧
    (∀ cands fd, env.resolution = some cands → tryBind cands = Except.ok (some fd) →
      env.listenOk MAX_CONNS = false →
      (init_srv port env).2 = Except.error ⟨"ERROR on listen", 1⟩) ∧
    (∀ cands fd, env.resolution = some cands → tryBind cands = Except.ok (some fd) →
      env.listenOk MAX_CONNS = true → env.sigactionOk = true →
      (init_srv port env).2 = Except.ok fd) := by
  refine ⟨rfl, ?_, ?_, ?_, ?_, ?_, ?_⟩
  · intro h
    simp [init_srv, h]
  · intro cands fd
    constructor
    · exact tryBind_ok_elim fd cands
    · rintro ⟨pre, c, post, rfl, h1, h2, h3, h4⟩
      exact tryBind_of_decomp fd c post h1 h2 h3 pre h4
  · intro c rest fd h1 h2
    simp [tryBind, h1, h2, error]
  · intro cands hres htb
    simp [init_srv, hres, htb]
  · intro cands fd hres htb hl
    simp [init_srv, hres, htb, hl, error]
  · intro cands fd hres htb hl hsig
    simp [init_srv, hres, htb, hl, hsig]

/-- C6 witness: with candidates (socket fails; binds nothing; binds fd 3)
and working listen/sigaction, startup returns fd 3. -/
theorem init_srv_bind_listen_spec_witness :
    sampleEnv.resolution = some sampleCands ∧
    tryBind sampleCands = Except.ok (some 3) ∧
    sampleEnv.listenOk MAX_CONNS = true ∧ sampleEnv.sigactionOk = true ∧
    (init_srv 6601 sampleEnv).2 = Except.ok 3 :=
  ⟨rfl, rfl, rfl, rfl,
    (init_srv_bind_listen_spec 6601 sampleEnv).2.2.2.2.2.2 sampleCands 3 rfl rfl rfl rfl⟩

/-- C7: an out-of-range port is reported on the diagnostic stream but
startup is not stopped: the rest of `init_srv` behaves exactly as for the
valid default port 6601 under the same environment. -/
theorem init_srv_invalid_port_lenient (port : Int) (env : SrvEnv)
    (h : port < 1 ∨ port > 65535) :
    (init_srv port env).1.head? = some "Invalid port" ∧
    (init_srv port env).2 = (init_srv 6601 env).2 ∧
    (init_srv port env).1 = "Invalid port" :: (init_srv 6601 env).1 := by
  have hv : ¬((6601 : Int) < 1 ∨ (6601 : Int) > 65535) := by decide
  simp only [init_srv, if_pos h, if_neg hv]
  cases hres : env.resolution with
  | none => simp
  | some cands =>
    cases htb : tryBind cands with
    | error e => simp [htb]
    | ok o =>
      cases o with
      | none => simp [htb]
      | some fd =>
        by_cases hl : env.listenOk MAX_CONNS = false
        · simp [htb, hl]
        · by_cases hs : env.sigactionOk = false
          · simp [htb, hl, hs]
          · simp [htb, hl, hs]

/-- C7 witness: port 0 is invalid; startup proceeds and still binds fd 3
in the sample environment. -/
theorem init_srv_invalid_port_lenient_witness :
    ((0 : Int) < 1 ∨ (0 : Int) > 65535) ∧
    (init_srv 0 sampleEnv).1 = "Invalid port" :: (init_srv 6601 sampleEnv).1 :=
  ⟨by decide, (init_srv_invalid_port_lenient 0 sampleEnv (by decide)).2.2⟩

/-- C8 counterexample: `accept` failing with the transient errno `EINTR`
still terminates the whole process fatally, contradicting the claim that
transient/retryable accept failures do not terminate the process. -/
theorem init_cli_transient_failure_fatal :
    Errno.transient Errno.eintr = true ∧
    init_cli (Except.error Errno.eintr) =
      Except.error { msg := "ERROR on accept", code := 1 } :=
  ⟨rfl, rfl⟩

/-- C8 (amended): `init_cli` accepts exactly one pending connection and
returns its handle; every accept failure, transient or not, terminates
the process fatally with the "ERROR on accept" diagnostic and exit 1. -/
theorem init_cli_spec :
    (∀ fd, init_cli (Except.ok fd) = Except.ok fd) ∧
    (∀ e, init_cli (Except.error e) =
      Except.error { msg := "ERROR on accept", code := 1 }) :=
  ⟨fun _ => rfl, fun _ => rfl⟩

/-- C1: a positive read of `bs` from client `i` writes exactly `bs` to
every fd currently in `master` except the listening fd and `i` itself,
visited in ascending-fd order; the sender never appears among the write
destinations, and when `i` is the only client the broadcast has zero
recipients and still succeeds. -/
theorem raw_broadcast_fanout (s : RawState) (i : Nat) (bs : List Nat)
    (w : Nat → Bool) (hm : ∀ j ∈ s.master, j ≤ s.fdmax)
    (hw : ∀ j ∈ recipients s i, w j = true) (hbs : bs ≠ []) :
    handleClient s i (ReadOutcome.data bs) w =
      Except.ok ({ s with buf := bs ++ s.buf.drop bs.length },
        (recipients s i).map fun j => (j, bs)) ∧
    (∀ j, j ∈ recipients s i ↔ j ∈ s.master ∧ j ≠ s.srv ∧ j ≠ i) ∧
    (recipients s i).Pairwise (· < ·) ∧
    (∀ p, (i, p) ∉ (recipients s i).map fun j => (j, bs)) ∧
    (s.master = {s.srv, i} →
      handleClient s i (ReadOutcome.data bs) w =
        Except.ok ({ s with buf := bs ++ s.buf.drop bs.length }, [])) := by
  have hmain := handleClient_data_ok s i bs w hw
  refine ⟨hmain, mem_recipients s i hm, recipients_sorted s i, ?_, ?_⟩
  · intro p hp
    obtain ⟨j, hj, hjp⟩ := List.mem_map.mp hp
    exact recipients_ne_self s i j hj (congrArg Prod.fst hjp)
  · intro honly
    have hnil : recipients s i = [] := by
      rw [List.eq_nil_iff_forall_not_mem]
      intro j hj
      rw [mem_recipients s i hm] at hj
      obtain ⟨hjm, hjs, hji⟩ := hj
      rw [honly, Finset.mem_insert, Finset.mem_singleton] at hjm
      rcases hjm with hc | hc
      · exact hjs hc
      · exact hji hc
    rw [hmain, hnil]
    rfl

/-- C1 witness: listening fd 3, clients 4 and 5; client 4 sends two bytes
and exactly client 5 receives them. -/
theorem raw_broadcast_fanout_witness :
    (∀ j ∈ sampleState.master, j ≤ sampleState.fdmax) ∧
    (∀ j ∈ recipients sampleState 4, (fun _ : Nat => true) j = true) ∧
    ([104, 105] : List Nat) ≠ [] ∧
    handleClient sampleState 4 (ReadOutcome.data [104, 105]) (fun _ => true) =
      Except.ok ({ sampleState with
          buf := [104, 105] ++ sampleState.buf.drop 2 }, [(5, [104, 105])]) :=
  ⟨by decide, by decide, by decide, by
    have h := (raw_broadcast_fanout sampleState 4 [104, 105] (fun _ => true)
      (by decide) (by decide) (by decide)).1
    rw [h]
    rfl⟩

/-- C2: a zero-length read on fd `i` is handled without error: the result
is `ok`, `i` alone is erased from `master` (all other fds stay, and the
other fields are untouched), nothing is written, and in any later state
not containing `i` no broadcast from any sender writes to `i`. -/
theorem raw_orderly_close (s : RawState) (i : Nat) (w : Nat → Bool) :
    handleClient s i ReadOutcome.eof w =
      Except.ok ({ s with master := s.master.erase i }, []) ∧
    i ∉ s.master.erase i ∧
    (∀ j ∈ s.master, j ≠ i → j ∈ s.master.erase i) ∧
    (∀ (s₂ : RawState) i' r' w' s₃ ws, i ∉ s₂.master →
      handleClient s₂ i' r' w' = Except.ok (s₃, ws) → ∀ p, (i, p) ∉ ws) := by
  refine ⟨rfl, Finset.not_mem_erase i s.master,
    fun j hj hji => Finset.mem_erase.mpr ⟨hji, hj⟩, ?_⟩
  intro s₂ i' r' w' s₃ ws hnm hcl p hp
  exact hnm (handleClient_writes_mem s₂ i' r' w' s₃ ws hcl (i, p) hp).1

/-- C2 witness: client 5 closes; it is removed while fds 3 and 4 stay. -/
theorem raw_orderly_close_witness :
    handleClient sampleState 5 ReadOutcome.eof (fun _ => true) =
      Except.ok ({ sampleState with master := sampleState.master.erase 5 }, []) ∧
    5 ∉ sampleState.master.erase 5 ∧
    4 ∈ sampleState.master.erase 5 ∧ 3 ∈ sampleState.master.erase 5 :=
  have h := raw_orderly_close sampleState 5 (fun _ => true)
  ⟨h.1, h.2.1, h.2.2.1 4 (by decide) (by decide), h.2.2.1 3 (by decide) (by decide)⟩

/-- C4: a failed select is fatal with "ERROR on select"; a read returning
-1 is fatal with "ERROR on read"; a rejected write to any fan-out
destination makes the whole dispatch fatal with "ERROR on write" (no
per-connection isolation); an orderly close is not an error; and every
`error` exit carries the non-zero status 1. -/
theorem raw_fatal_errors (s : RawState) (i : Nat) (bs : List Nat)
    (w : Nat → Bool) (hfail : ∃ j ∈ recipients s i, w j = false) :
    selectStep false = Except.error { msg := "ERROR on select", code := 1 } ∧
    handleClient s i ReadOutcome.err w =
      Except.error { msg := "ERROR on read", code := 1 } ∧
    handleClient s i (ReadOutcome.data bs) w =
      Except.error { msg := "ERROR on write", code := 1 } ∧
    (∃ out, handleClient s i ReadOutcome.eof w = Except.ok out) ∧
    (∀ m, (error m).code ≠ 0) := by
  refine ⟨rfl, rfl, ?_, ⟨_, rfl⟩, fun m => Nat.one_ne_zero⟩
  rw [handleClient]
  simp only [List.take_left]
  rw [fanout_fails w bs (recipients s i) hfail]
  rfl

/-- C4 witness: with client 5 rejecting the write, client 4's broadcast is
fatal with "ERROR on write" and exit status 1. -/
theorem raw_fatal_errors_witness :
    (∃ j ∈ recipients sampleState 4, (fun j : Nat => !(j == 5)) j = false) ∧
    handleClient sampleState 4 (ReadOutcome.data [104]) (fun j => !(j == 5)) =
      Except.error { msg := "ERROR on write", code := 1 } :=
  ⟨by decide,
    (raw_fatal_errors sampleState 4 [104] (fun j => !(j == 5)) (by decide)).2.2.1⟩

/-- C10: the fan-out transmits only the `bs.length` bytes just read: two
states agreeing on `srv`, `master` and `fdmax` but with arbitrarily
different residual buffer contents produce identical write sequences (and
identical errors), and every transmitted payload equals `bs` itself. -/
theorem raw_buffer_noninterference (s₁ s₂ : RawState) (i : Nat)
    (bs : List Nat) (w : Nat → Bool) (h1 : s₁.srv = s₂.srv)
    (h2 : s₁.master = s₂.master) (h3 : s₁.fdmax = s₂.fdmax) :
    (handleClient s₁ i (ReadOutcome.data bs) w).map Prod.snd =
      (handleClient s₂ i (ReadOutcome.data bs) w).map Prod.snd ∧
    (∀ s' ws, handleClient s₁ i (ReadOutcome.data bs) w = Except.ok (s', ws) →
      ∀ p ∈ ws, p.2 = bs) := by
  have hrec : recipients s₁ i = recipients s₂ i := by
    unfold recipients
    rw [h1, h2, h3]
  constructor
  · rw [handleClient, handleClient]
    simp only [List.take_left]
    rw [hrec]
    cases hfan : fanout w bs (recipients s₂ i) with
    | ok ws => rfl
    | error e => rfl
  · intro s' ws h p hp
    rcases handleClient_ok_cases s₁ i (ReadOutcome.data bs) w s' ws h with
      ⟨_, rfl⟩ | ⟨bs', heq, _, rfl⟩
    · simp at hp
    · injection heq with heq
      obtain ⟨j, _, rfl⟩ := List.mem_map.mp hp
      rw [heq]

/-- C10 witness: the same two-byte send from state with zeroed and with
42-filled residual buffer produces the same single write of exactly those
two bytes. -/
theorem raw_buffer_noninterference_witness :
    sampleState.srv = sampleStateAlt.srv ∧
    sampleState.master = sampleStateAlt.master ∧
    sampleState.fdmax = sampleStateAlt.fdmax ∧
    (handleClient sampleState 4 (ReadOutcome.data [104, 105]) (fun _ => true)).map
        Prod.snd =
      (handleClient sampleStateAlt 4 (ReadOutcome.data [104, 105]) (fun _ => true)).map
        Prod.snd :=
  ⟨rfl, rfl, rfl,
    (raw_buffer_noninterference sampleState sampleStateAlt 4 [104, 105]
      (fun _ => true) rfl rfl rfl).1⟩

/-- Unfolding `runChunks` across a successful first read. -/
lemma runChunks_cons_ok (i : Nat) (w : Nat → Bool) (s : RawState)
    (bs : List Nat) (rest : List (List Nat)) (s₁ : RawState)
    (ws₁ : List (Nat × List Nat))
    (h : handleClient s i (ReadOutcome.data bs) w = Except.ok (s₁, ws₁)) :
    runChunks i w s (bs :: rest) =
      match runChunks i w s₁ rest with
      | Except.error e => Except.error e
      | Except.ok (s₂, ws₂) => Except.ok (s₂, ws₁ ++ ws₂) := by
  rw [runChunks, h]

/-- Iterating the client branch over successive in-range reads from the
same sender, with all writes accepted, succeeds, leaves the fd bookkeeping
untouched, keeps the buffer at its fixed capacity, and delivers to every
destination exactly the list of read fragments in order. -/
lemma runChunks_ok (i : Nat) (chunks : List (List Nat)) :
    ∀ s : RawState, (∀ c ∈ chunks, c.length ≤ MAX_BUF) →
      s.buf.length = MAX_BUF →
      ∃ s' ws, runChunks i (fun _ => true) s chunks = Except.ok (s', ws) ∧
        s'.master = s.master ∧ s'.fdmax = s.fdmax ∧ s'.srv = s.srv ∧
        s'.buf.length = MAX_BUF ∧
        ∀ j ∈ recipients s i,
          (ws.filter fun p => p.1 == j).map Prod.snd = chunks := by
  induction chunks with
  | nil =>
    intro s _ hbuf
    exact ⟨s, [], rfl, rfl, rfl, rfl, hbuf, fun j _ => rfl⟩
  | cons c rest ih =>
    intro s hc hbuf
    have hlen : c.length ≤ MAX_BUF := (hc c (List.mem_cons_self c rest)).trans
      (Nat.le_refl _)
    have hstep := handleClient_data_ok s i c (fun _ => true) (fun j _ => rfl)
    have hbuf' : ((c ++ s.buf.drop c.length : List Nat)).length = MAX_BUF := by
      rw [List.length_append, List.length_drop, hbuf]
      omega
    obtain ⟨s', ws', hrun, hm, hf, hsv, hb, hdeliv⟩ :=
      ih { s with buf := c ++ s.buf.drop c.length }
        (fun x hx => hc x (List.mem_cons_of_mem c hx)) hbuf'
    refine ⟨s', ((recipients s i).map fun j => (j, c)) ++ ws', ?_, hm, hf, hsv, hb, ?_⟩
    · rw [runChunks_cons_ok i (fun _ => true) s c rest _ _ hstep, hrun]
    · intro j hj
      rw [List.filter_append, List.map_append,
        filter_map_pair c j (recipients s i) (recipients_nodup s i) hj,
        hdeliv j hj]
      rfl

/-- C3: the buffer capacity is the fixed `MAX_BUF = 255`; each readiness
event is forwarded independently with no accumulation, so a payload split
by the bounded reads into consecutive fragments reaches every other peer
as exactly those fragments in order, and their concatenation equals the
original payload. -/
theorem raw_fragmentation_concat (s : RawState) (i : Nat)
    (chunks : List (List Nat))
    (hc : ∀ c ∈ chunks, c ≠ [] ∧ c.length ≤ MAX_BUF)
    (hbuf : s.buf.length = MAX_BUF) :
    MAX_BUF = 255 ∧
    ∃ s' ws, runChunks i (fun _ => true) s chunks = Except.ok (s', ws) ∧
      s'.master = s.master ∧ s'.fdmax = s.fdmax ∧ s'.srv = s.srv ∧
      s'.buf.length = MAX_BUF ∧
      ∀ j ∈ recipients s i,
        (ws.filter fun p => p.1 == j).map Prod.snd = chunks ∧
        ((ws.filter fun p => p.1 == j).map Prod.snd).flatten = chunks.flatten := by
  refine ⟨rfl, ?_⟩
  obtain ⟨s', ws, h1, h2, h3, h4, h5, h6⟩ :=
    runChunks_ok i chunks s (fun c hmem => (hc c hmem).2) hbuf
  exact ⟨s', ws, h1, h2, h3, h4, h5,
    fun j hj => ⟨h6 j hj, by rw [h6 j hj]⟩⟩

/-- C3 witness: a three-byte payload sent as fragments [104,105] and [106]
from client 4 reaches client 5 as exactly these fragments, whose
concatenation is the payload. -/
theorem raw_fragmentation_concat_witness :
    (∀ c ∈ ([[104, 105], [106]] : List (List Nat)), c ≠ [] ∧ c.length ≤ MAX_BUF) ∧
    sampleState.buf.length = MAX_BUF ∧
    MAX_BUF = 255 :=
  ⟨by decide, by simp [sampleState],
    (raw_fragmentation_concat sampleState 4 [[104, 105], [106]]
      (by decide) (by simp [sampleState])).1⟩

/-- C5: in every reachable loop state the listening fd is still registered
(no transition removes it); an orderly close removes exactly the closed fd
in that same step with nothing written; a removed fd stays out of `master`
across any further step that is not an accept returning that same fd; and
no broadcast in a state not containing an fd ever writes to it. -/
theorem raw_listener_persistence (srv : Nat) (buf0 : List Nat) (s : RawState)
    (h : Reaches srv buf0 s) :
    srv ∈ s.master ∧ s.srv = srv ∧
    (∀ i w s' ws, handleClient s i ReadOutcome.eof w = Except.ok (s', ws) →
      i ∉ s'.master ∧ ws = []) ∧
    (∀ i, i ∉ s.master → ∀ e s', Step s e s' → e ≠ Ev.acc (Except.ok i) →
      i ∉ s'.master) ∧
    (∀ i i' r w s' ws, i ∉ s.master →
      handleClient s i' r w = Except.ok (s', ws) → ∀ p, (i, p) ∉ ws) := by
  obtain ⟨h1, h2, _⟩ := reaches_inv srv buf0 s h
  refine ⟨h2, h1, ?_, ?_, ?_⟩
  · intro i w s' ws hcl
    rw [handleClient] at hcl
    injection hcl with hcl
    rw [Prod.mk.injEq] at hcl
    refine ⟨?_, hcl.2.symm⟩
    rw [← hcl.1]
    exact Finset.not_mem_erase i s.master
  · intro i hnm e s' hs hne
    cases e with
    | acc r =>
      obtain ⟨cli, hr, rfl⟩ := handleAccept_ok s r s' hs
      rw [Finset.mem_insert]
      rintro (rfl | hmem)
      · exact hne (by rw [hr])
      · exact hnm hmem
    | cli i' r w ws =>
      obtain ⟨hi, hine, hrd, hcl⟩ := hs
      rcases handleClient_ok_cases s i' r w s' ws hcl with ⟨rfl, _⟩ | ⟨bs, _, rfl, _⟩
      · intro hmem
        exact hnm (Finset.mem_of_mem_erase hmem)
      · exact hnm
  · intro i i' r w s' ws hnm hcl p hp
    exact hnm (handleClient_writes_mem s i' r w s' ws hcl (i, p) hp).1

/-- C5 witness: after the initial state accepts client 4, the listening
fd 3 is still registered. -/
theorem raw_listener_persistence_witness :
    Step (initState 3 (List.replicate MAX_BUF 0)) (Ev.acc (Except.ok 4))
      sampleAccepted ∧
    3 ∈ sampleAccepted.master :=
  have hstep : Step (initState 3 (List.replicate MAX_BUF 0))
      (Ev.acc (Except.ok 4)) sampleAccepted := rfl
  ⟨hstep, (raw_listener_persistence 3 (List.replicate MAX_BUF 0) _
    (Reaches.tail _ _ _ Reaches.refl hstep)).1⟩

/-- C9: at every reachable loop state the listening fd is in the master
set and every registered fd is at most `fdmax`; no transition decreases
`fdmax`; an accept registers the new fd and raises `fdmax` to cover it;
and a client removal leaves `fdmax` unchanged. -/
theorem raw_loop_fd_invariants (srv : Nat) (buf0 : List Nat) (s : RawState)
    (h : Reaches srv buf0 s) :
    s.srv ∈ s.master ∧ (∀ j ∈ s.master, j ≤ s.fdmax) ∧
    (∀ e s', Step s e s' → s.fdmax ≤ s'.fdmax) ∧
    (∀ cli s', handleAccept s (Except.ok cli) = Except.ok s' →
      cli ≤ s'.fdmax ∧ s.fdmax ≤ s'.fdmax ∧ cli ∈ s'.master) ∧
    (∀ i w s' ws, handleClient s i ReadOutcome.eof w = Except.ok (s', ws) →
      s'.fdmax = s.fdmax) := by
  obtain ⟨h1, h2, h3⟩ := reaches_inv srv buf0 s h
  refine ⟨by rw [h1]; exact h2, h3, ?_, ?_, ?_⟩
  · intro e s' hs
    exact (step_inv s e s' hs).2.2.2
  · intro cli s' hacc
    obtain ⟨cli', hr, rfl⟩ := handleAccept_ok s (Except.ok cli) s' hacc
    injection hr with hr
    subst hr
    refine ⟨?_, ?_, Finset.mem_insert_self _ _⟩
    · by_cases hcond : cli > s.fdmax
      · simp [hcond]
      · simp [hcond]; omega
    · by_cases hcond : cli > s.fdmax
      · simp [hcond]; omega
      · simp [hcond]
  · intro i w s' ws hcl
    rw [handleClient] at hcl
    injection hcl with hcl
    rw [Prod.mk.injEq] at hcl
    rw [← hcl.1]

/-- C9 witness: the initial state satisfies the scan-coverage invariant. -/
theorem raw_loop_fd_invariants_witness :
    (initState 3 (List.replicate MAX_BUF 0)).srv ∈
      (initState 3 (List.replicate MAX_BUF 0)).master :=
  (raw_loop_fd_invariants 3 (List.replicate MAX_BUF 0) _ Reaches.refl).1
